import Mathlib

/-!
Verification of the `alai` repository-state engine against its specification.

The development shallowly embeds the core of `src/alai/wal.py` (version
algebra, package records, in-memory state, write-ahead log with replay),
`src/alai/graph.py` (inverse edges and BFS impact layers) and the exporter's
failure handling into Lean.  Strings are modelled as `List Char` so that the
character-level string surgery done by the Python code (splitting on `':'`,
`'-'`, `'.'`, newline framing of the log file) can be mirrored exactly.
Python exceptions are modelled with `Except`; a function that raises leaves
its input untouched, so the error branch simply carries no state.
-/

namespace Alai

/-! ## Basic character and list helpers -/

/-- Decimal digit character for a value `0 ≤ n ≤ 9`. -/
def digitChar (n : Nat) : Char := Char.ofNat (48 + n)

/-- Fuel-driven rendering of the digits of a natural number (most significant
first), mirroring Python `str` on non-negative integers.  The fuel is an upper
bound on the number of digits; `natRepr` supplies a sufficient bound. -/
def natReprAux : Nat → Nat → List Char
  | 0, _ => []
  | _ + 1, 0 => []
  | fuel + 1, n => natReprAux fuel (n / 10) ++ [digitChar (n % 10)]

/-- Python `str(n)` for a natural number. -/
def natRepr (n : Nat) : List Char :=
  if n = 0 then ['0'] else natReprAux (n + 1) n

/-- Python `str(i)` for an integer: a `'-'` sign followed by the digits when
negative, the bare digits otherwise. -/
def intRepr (i : Int) : List Char :=
  if i < 0 then '-' :: natRepr i.natAbs else natRepr i.natAbs

/-- ASCII whitespace accepted (and stripped) by Python `int(str)`. -/
def isPyWs (c : Char) : Bool :=
  c = ' ' || c = '\t' || c = '\n' || c = '\r' || c = Char.ofNat 11 || c = Char.ofNat 12

/-- ASCII decimal digit test. -/
def isDigitCh (c : Char) : Bool := '0' ≤ c && c ≤ '9'

/-- Value of an ASCII decimal digit. -/
def digitVal (c : Char) : Nat := c.toNat - 48

/-- Digit accumulator for `pyIntParse`: digits with single underscores allowed
between digits, as Python `int` accepts. -/
def pyDigitsLoop : List Char → Nat → Option Nat
  | [], acc => some acc
  | c :: cs, acc =>
    if isDigitCh c then pyDigitsLoop cs (acc * 10 + digitVal c)
    else if c = '_' then
      match cs with
      | d :: rest =>
        if isDigitCh d then pyDigitsLoop rest (acc * 10 + digitVal d) else none
      | [] => none
    else none

/-- Unsigned part of a Python integer literal: a nonempty digit string with
optional single underscores between digits. -/
def pyUDigits : List Char → Option Nat
  | [] => none
  | c :: cs => if isDigitCh c then pyDigitsLoop cs (digitVal c) else none

/-- Model of Python `int(s)` on a string: surrounding ASCII whitespace is
stripped, an optional single `'+'` or `'-'` sign is accepted, and the digits
may contain single underscores.  Returns `none` where Python raises
`ValueError`.  (Non-ASCII digits are not modelled; they never occur here.) -/
def pyIntParse (cs : List Char) : Option Int :=
  let cs := ((cs.dropWhile isPyWs).reverse.dropWhile isPyWs).reverse
  match cs with
  | '-' :: rest => (pyUDigits rest).map (fun n => -(n : Int))
  | '+' :: rest => (pyUDigits rest).map (fun n => (n : Int))
  | rest => (pyUDigits rest).map (fun n => (n : Int))

/-- Python `s.split(sep, 1)` when `sep` occurs: the part before the first
occurrence and the part after it.  `none` when `sep` does not occur (Python
would return a one-element list). -/
def splitFirst (sep : Char) : List Char → Option (List Char × List Char)
  | [] => none
  | c :: cs =>
    if c = sep then some ([], cs)
    else
      match splitFirst sep cs with
      | none => none
      | some (a, b) => some (c :: a, b)

/-- Python `s.split(sep)` (no limit): every maximal run between separators,
empty runs included; the empty string yields `[""]`. -/
def splitAll (sep : Char) : List Char → List (List Char)
  | [] => [[]]
  | c :: cs =>
    if c = sep then [] :: splitAll sep cs
    else
      match splitAll sep cs with
      | [] => [[c]]
      | h :: t => (c :: h) :: t

/-- Python `sep.join(parts)` for a one-character separator. -/
def joinSep (sep : Char) : List (List Char) → List Char
  | [] => []
  | [x] => x
  | x :: xs => x ++ sep :: joinSep sep xs

/-- Join with a multi-character separator (used by the JSON emitter). -/
def joinSepL (sep : List Char) : List (List Char) → List Char
  | [] => []
  | [x] => x
  | x :: xs => x ++ sep ++ joinSepL sep xs

/-- Python string `<`: lexicographic comparison by code points. -/
def pyStrLt : List Char → List Char → Bool
  | [], [] => false
  | [], _ :: _ => true
  | _ :: _, [] => false
  | a :: xs, b :: ys => if a = b then pyStrLt xs ys else decide (a < b)

/-! ## Error kinds

Python exceptions raised by the embedded code, by semantic role:
`duplicate`/`notFound` are the `KeyError`s of `add_package`/`update_package`;
`missingDependency` and `versionNotStrictlyIncreasing` are the corresponding
`RuntimeError`s; `typeError` is the `TypeError` raised when comparing an
integer with a string component (or on malformed record arguments);
`valueError` covers `int()` conversion failures inside `Version.from_string`;
`jsonInvalid` is `json.JSONDecodeError`; `walCorruptMissingOp` is the
`RuntimeError('Corrupted WAL: missing op.')` of `WAL.play`; `attributeError`
is raised when a replayed record is not a JSON object. -/

inductive Err
  | duplicate
  | notFound
  | missingDependency
  | versionNotStrictlyIncreasing
  | dependencyHeld
  | typeError
  | valueError
  | jsonInvalid
  | walCorruptMissingOp
  | attributeError
deriving DecidableEq, Repr

/-! ## Version (`src/alai/wal.py` lines 33–107) -/

/-- One entry of `Version.components`: Python stores either an `int` or a
`str` for each dot-separated token. -/
inductive Component
  | int (n : Int)
  | str (s : List Char)
deriving DecidableEq, Repr

/-- `Version` dataclass: `components`, `release`, optional `epoch`. -/
structure Version where
  components : List Component
  release : Int
  epoch : Option Int := none
deriving DecidableEq, Repr

/-- A dot-separated token becomes an `int` when Python `int()` accepts it,
otherwise it stays a string (`Version.from_string`, lines 100–105). -/
def mkComponent (cs : List Char) : Component :=
  match pyIntParse cs with
  | some n => .int n
  | none => .str cs

/-- Shared tail of `Version.from_string` after the optional epoch has been
split off: split at the first `'-'` (Python `split('-', 1)`), convert the
release with `int()`, reject a non-positive release (`__post_init__`), and
split the upstream part on `'.'` into components. -/
def versionBody (cs : List Char) (e : Option Int) : Option Version :=
  match splitFirst '-' cs with
  | none => none
  | some (up, rel) =>
    match pyIntParse rel with
    | none => none
    | some r =>
      if r ≤ 0 then none
      else some ⟨(splitAll '.' up).map mkComponent, r, e⟩

/-- `Version.from_string` (lines 88–107): split at the first `':'` for the
optional epoch (whose `int()` conversion must succeed), then parse the body.
`none` models every exception the Python code raises. -/
def versionFromChars (cs : List Char) : Option Version :=
  match splitFirst ':' cs with
  | some (pre, post) => (pyIntParse pre).bind (fun e => versionBody post (some e))
  | none => versionBody cs none

/-- `str(x)` for one component. -/
def componentChars : Component → List Char
  | .int n => intRepr n
  | .str s => s

/-- `Version.__str__` (lines 81–86).  Note the truthiness test `if
self.epoch:`: an epoch equal to `0` is rendered without the epoch prefix. -/
def versionRender (v : Version) : List Char :=
  let comps := joinSep '.' (v.components.map componentChars)
  match v.epoch with
  | some e =>
    if e = 0 then comps ++ '-' :: intRepr v.release
    else intRepr e ++ ':' :: (comps ++ '-' :: intRepr v.release)
  | none => comps ++ '-' :: intRepr v.release

/-- Python `==` between two component values: `int == str` is `False`
(no exception). -/
def componentEqb : Component → Component → Bool
  | .int m, .int n => m == n
  | .str s, .str t => s == t
  | _, _ => false

/-- Python `<` between two component values: numeric for two ints,
lexicographic for two strings, `TypeError` for a mixed pair. -/
def componentLt : Component → Component → Except Err Bool
  | .int m, .int n => .ok (decide (m < n))
  | .str s, .str t => .ok (pyStrLt s t)
  | _, _ => .error .typeError

/-- Python tuple `<` on component tuples: find the first position where the
elements differ (under `==`) and compare there (raising `TypeError` on a
mixed pair); if one tuple is a prefix of the other, the shorter is smaller. -/
def tupleLt : List Component → List Component → Except Err Bool
  | [], [] => .ok false
  | [], _ :: _ => .ok true
  | _ :: _, [] => .ok false
  | a :: xs, b :: ys =>
    if componentEqb a b then tupleLt xs ys else componentLt a b

/-- `Version.__eq__` (lines 46–52): structural equality. -/
def versionEqb (a b : Version) : Bool :=
  a.epoch == b.epoch && a.components == b.components && a.release == b.release

/-- `Version.__lt__` (lines 54–73), faithfully including its quirks: when both
epochs are present and `self.epoch < that.epoch` fails, control FALLS THROUGH
to the components comparison (a greater epoch is not handled); the components
comparison can raise `TypeError` on mixed int/str positions; and when
`self.components < that.components` is false the result is the release
comparison even if `self.components > that.components`. -/
def versionLt (a b : Version) : Except Err Bool :=
  let rest : Except Err Bool :=
    match tupleLt a.components b.components with
    | .error e => .error e
    | .ok true => .ok true
    | .ok false => .ok (decide (a.release < b.release))
  match a.epoch, b.epoch with
  | some e1, some e2 => if e1 < e2 then .ok true else rest
  | none, some _ => .ok true
  | some _, none => .ok false
  | none, none => rest

/-- `Version.__le__` (lines 75–79): `self < that or self == that`. -/
def versionLe (a b : Version) : Except Err Bool :=
  match versionLt a b with
  | .error e => .error e
  | .ok true => .ok true
  | .ok false => .ok (versionEqb a b)

end Alai

namespace Alai

/-! ## Package and State (`src/alai/wal.py` lines 110–125) -/

/-- `Package` dataclass; field order matters because `asdict` preserves it
when a record is appended to the log. -/
structure Package where
  name : List Char
  version : List Char
  depends : List (List Char)
  external : Bool := false
  arch : List Char := "any".data
deriving DecidableEq, Repr

/-- `State` dataclass: `revision` (an `int`, default `0`) and the `packages`
dict, modelled as an association list in insertion order with unique keys,
exactly the observable behaviour of a Python `dict`. -/
structure State where
  revision : Int := 0
  packages : List (List Char × Package) := []
deriving DecidableEq, Repr

/-- Dict lookup `packages.get(name)`: value of the first (hence, keys being
unique, the only) entry with the given key. -/
def plookup : List (List Char × Package) → List Char → Option Package
  | [], _ => none
  | pr :: ps, k => if pr.1 == k then some pr.2 else plookup ps k

/-- Python dict assignment `packages[name] = p` on an existing key: the value
is replaced, the key keeps its position. -/
def replacePkg (ps : List (List Char × Package)) (nm : List Char) (p : Package) :
    List (List Char × Package) :=
  ps.map (fun pr => if pr.1 == nm then (pr.1, p) else pr)

/-- `WAL.add_package` restricted to its effect on `State` (lines 193–204):
raise `KeyError` on a duplicate name, raise `RuntimeError` at the first
missing dependency, otherwise insert the package at the end of the dict.
The log append is layered on top in `WAL.add_package` below.  Note that the
source never touches `state.revision` here. -/
def State.add_package (st : State) (p : Package) : Except Err State :=
  if (plookup st.packages p.name).isSome then .error .duplicate
  else
    match p.depends.find? (fun d => (plookup st.packages d).isNone) with
    | some _ => .error .missingDependency
    | none => .ok { st with packages := st.packages ++ [(p.name, p)] }

/-- `WAL.update_package` restricted to its effect on `State` (lines 206–226):
`KeyError` when the name is absent; parse both versions (`ValueError` /
`RuntimeError` when `from_string` fails); raise when `prev_ver >= next_ver`,
which Python evaluates as the reflected call `next_ver.__le__(prev_ver)` and
which may itself raise `TypeError`; then check dependencies; finally replace
the entry in place.  `state.revision` is again left untouched. -/
def State.update_package (st : State) (p : Package) : Except Err State :=
  match plookup st.packages p.name with
  | none => .error .notFound
  | some prev =>
    match versionFromChars prev.version with
    | none => .error .valueError
    | some prevVer =>
      match versionFromChars p.version with
      | none => .error .valueError
      | some nextVer =>
        match versionLe nextVer prevVer with
        | .error e => .error e
        | .ok true => .error .versionNotStrictlyIncreasing
        | .ok false =>
          match p.depends.find? (fun d => (plookup st.packages d).isNone) with
          | some _ => .error .missingDependency
          | none => .ok { st with packages := replacePkg st.packages p.name p }

/-! ## JSON (model of Python `json.loads` / `json.dumps`)

`WAL.append` serializes records with `json.dumps(record, ensure_ascii=False,
indent=None)` and `WAL.play` decodes each line with `json.loads`.  The model
covers the JSON fragment the log can contain: `null`, booleans, integers,
strings, arrays and objects.  (Floating-point literals are rejected by the
model; no record ever contains one.) -/

inductive Json
  | null
  | bool (b : Bool)
  | num (n : Int)
  | str (s : List Char)
  | arr (elems : List Json)
  | obj (fields : List (List Char × Json))
deriving BEq, Repr

/-- `'{'` (written via its code point). -/
def lbrace : Char := Char.ofNat 123

/-- `'}'` (written via its code point). -/
def rbrace : Char := Char.ofNat 125

/-- `'['`. -/
def lbracket : Char := Char.ofNat 91

/-- `']'`. -/
def rbracket : Char := Char.ofNat 93

/-- Lowercase hex digit. -/
def hexDigit (n : Nat) : Char :=
  if n < 10 then digitChar n else Char.ofNat (87 + n)

/-- Escaping of one character by `json.dumps(..., ensure_ascii=False)`. -/
def jsonEscapeChar (c : Char) : List Char :=
  if c = '"' then ['\\', '"']
  else if c = '\\' then ['\\', '\\']
  else if c = '\n' then ['\\', 'n']
  else if c = '\t' then ['\\', 't']
  else if c = '\r' then ['\\', 'r']
  else if c = Char.ofNat 8 then ['\\', 'b']
  else if c = Char.ofNat 12 then ['\\', 'f']
  else if c.toNat < 32 then
    ['\\', 'u', '0', '0', hexDigit (c.toNat / 16), hexDigit (c.toNat % 16)]
  else [c]

/-- JSON string literal for `s`. -/
def jsonStrDump (s : List Char) : List Char :=
  '"' :: (s.map jsonEscapeChar).flatten ++ ['"']

/-- Fuel-driven `json.dumps(..., ensure_ascii=False, indent=None)`: compact
one-line form with the default separators `', '` and `': '`, keys in dict
insertion order.  The fuel bounds the nesting depth. -/
def jdumps : Nat → Json → List Char
  | _, .null => "null".data
  | _, .bool true => "true".data
  | _, .bool false => "false".data
  | _, .num n => intRepr n
  | _, .str s => jsonStrDump s
  | 0, .arr _ => []
  | 0, .obj _ => []
  | fuel + 1, .arr xs =>
    lbracket :: joinSepL (", ".data) (xs.map (jdumps fuel)) ++ [rbracket]
  | fuel + 1, .obj kvs =>
    lbrace ::
      joinSepL (", ".data)
        (kvs.map (fun kv => jsonStrDump kv.1 ++ ':' :: ' ' :: jdumps fuel kv.2))
      ++ [rbrace]

/-- `json.dumps` with ample fuel (log records nest two levels deep). -/
def jsonDumps (j : Json) : List Char := jdumps 100 j

/-- JSON inter-token whitespace. -/
def skipWs (cs : List Char) : List Char :=
  cs.dropWhile (fun c => c = ' ' || c = '\t' || c = '\n' || c = '\r')

/-- Match a literal keyword tail. -/
def stripToken : List Char → List Char → Option (List Char)
  | [], cs => some cs
  | _ :: _, [] => none
  | t :: ts, c :: cs => if c = t then stripToken ts cs else none

/-- Hex digit value. -/
def hexVal (c : Char) : Option Nat :=
  if isDigitCh c then some (digitVal c)
  else if 'a' ≤ c && c ≤ 'f' then some (c.toNat - 87)
  else if 'A' ≤ c && c ≤ 'F' then some (c.toNat - 55)
  else none

/-- JSON string body after the opening quote (strict mode: raw control
characters are rejected; the standard escapes and `\uXXXX` are accepted). -/
def jpString : Nat → List Char → Option (List Char × List Char)
  | 0, _ => none
  | _ + 1, [] => none
  | fuel + 1, c :: rest =>
    if c = '"' then some ([], rest)
    else if c = '\\' then
      match rest with
      | [] => none
      | e :: r2 =>
        if e = '"' then (jpString fuel r2).map (fun pr => ('"' :: pr.1, pr.2))
        else if e = '\\' then (jpString fuel r2).map (fun pr => ('\\' :: pr.1, pr.2))
        else if e = '/' then (jpString fuel r2).map (fun pr => ('/' :: pr.1, pr.2))
        else if e = 'b' then (jpString fuel r2).map (fun pr => (Char.ofNat 8 :: pr.1, pr.2))
        else if e = 'f' then (jpString fuel r2).map (fun pr => (Char.ofNat 12 :: pr.1, pr.2))
        else if e = 'n' then (jpString fuel r2).map (fun pr => ('\n' :: pr.1, pr.2))
        else if e = 'r' then (jpString fuel r2).map (fun pr => ('\r' :: pr.1, pr.2))
        else if e = 't' then (jpString fuel r2).map (fun pr => ('\t' :: pr.1, pr.2))
        else if e = 'u' then
          match r2 with
          | h1 :: h2 :: h3 :: h4 :: r3 =>
            match hexVal h1, hexVal h2, hexVal h3, hexVal h4 with
            | some a, some b, some c3, some d =>
              (jpString fuel r3).map
                (fun pr => (Char.ofNat (a * 4096 + b * 256 + c3 * 16 + d) :: pr.1, pr.2))
            | _, _, _, _ => none
          | _ => none
        else none
    else if c.toNat < 32 then none
    else (jpString fuel rest).map (fun pr => (c :: pr.1, pr.2))

/-- Consume a run of digits into an accumulator. -/
def jpDigits : List Char → Nat → Nat × List Char
  | [], acc => (acc, [])
  | c :: rest, acc =>
    if isDigitCh c then jpDigits rest (acc * 10 + digitVal c) else (acc, c :: rest)

/-- Unsigned JSON integer: `0` or a nonzero leading digit followed by digits. -/
def jpUNum : List Char → Option (Nat × List Char)
  | [] => none
  | c :: rest =>
    if c = '0' then some (0, rest)
    else if isDigitCh c then some (jpDigits rest (digitVal c))
    else none

/-- Signed JSON integer. -/
def jpNum : List Char → Option (Int × List Char)
  | '-' :: rest => (jpUNum rest).map (fun pr => (-(pr.1 : Int), pr.2))
  | cs => (jpUNum cs).map (fun pr => ((pr.1 : Int), pr.2))

mutual

/-- One JSON value (recursive descent, fuel bounds the recursion). -/
def jpVal : Nat → List Char → Option (Json × List Char)
  | 0, _ => none
  | fuel + 1, cs =>
    match skipWs cs with
    | [] => none
    | c :: rest =>
      if c = 'n' then (stripToken "ull".data rest).map (fun r => (Json.null, r))
      else if c = 't' then (stripToken "rue".data rest).map (fun r => (Json.bool true, r))
      else if c = 'f' then (stripToken "alse".data rest).map (fun r => (Json.bool false, r))
      else if c = '"' then (jpString (rest.length + 1) rest).map (fun pr => (Json.str pr.1, pr.2))
      else if c = '-' || isDigitCh c then (jpNum (c :: rest)).map (fun pr => (Json.num pr.1, pr.2))
      else if c = lbracket then jpArrStart fuel rest
      else if c = lbrace then jpObjStart fuel rest
      else none

/-- Array body after `'['`. -/
def jpArrStart : Nat → List Char → Option (Json × List Char)
  | 0, _ => none
  | fuel + 1, cs =>
    match skipWs cs with
    | [] => none
    | c :: rest =>
      if c = rbracket then some (Json.arr [], rest)
      else
        match jpVal fuel (c :: rest) with
        | none => none
        | some (v, r2) => jpArrTail fuel r2 [v]

/-- Array continuation after a value: `','` or `']'`. -/
def jpArrTail : Nat → List Char → List Json → Option (Json × List Char)
  | 0, _, _ => none
  | fuel + 1, cs, acc =>
    match skipWs cs with
    | [] => none
    | c :: rest =>
      if c = rbracket then some (Json.arr acc.reverse, rest)
      else if c = ',' then
        match jpVal fuel rest with
        | none => none
        | some (v, r2) => jpArrTail fuel r2 (v :: acc)
      else none

/-- Object body after the opening brace. -/
def jpObjStart : Nat → List Char → Option (Json × List Char)
  | 0, _ => none
  | fuel + 1, cs =>
    match skipWs cs with
    | [] => none
    | c :: rest =>
      if c = rbrace then some (Json.obj [], rest)
      else if c = '"' then
        match jpString (rest.length + 1) rest with
        | none => none
        | some (k, r2) => jpObjVal fuel r2 k []
      else none

/-- Object member value after a key: expects `':'` then a value. -/
def jpObjVal : Nat → List Char → List Char → List (List Char × Json) →
    Option (Json × List Char)
  | 0, _, _, _ => none
  | fuel + 1, cs, k, acc =>
    match skipWs cs with
    | [] => none
    | c :: rest =>
      if c = ':' then
        match jpVal fuel rest with
        | none => none
        | some (v, r2) => jpObjTail fuel r2 ((k, v) :: acc)
      else none

/-- Object continuation after a member: closing brace or `','` and a key. -/
def jpObjTail : Nat → List Char → List (List Char × Json) →
    Option (Json × List Char)
  | 0, _, _ => none
  | fuel + 1, cs, acc =>
    match skipWs cs with
    | [] => none
    | c :: rest =>
      if c = rbrace then some (Json.obj acc.reverse, rest)
      else if c = ',' then
        match skipWs rest with
        | [] => none
        | c2 :: r2 =>
          if c2 = '"' then
            match jpString (r2.length + 1) r2 with
            | none => none
            | some (k, r3) => jpObjVal fuel r3 k acc
          else none
      else none

end

/-- Model of `json.loads` on a whole document: one value, surrounded only by
whitespace.  `none` models `json.JSONDecodeError`. -/
def jsonParse (cs : List Char) : Option Json :=
  match jpVal (cs.length + 1) cs with
  | none => none
  | some (v, rest) => if skipWs rest = [] then some v else none

end Alai

namespace Alai

/-! ## Replayed record decoding (`WAL.play`, lines 164–182) -/

/-- Build a Python dict from parsed JSON object members: a later duplicate key
overwrites the value but keeps the first key's position. -/
def pyDictIns (d : List (List Char × Json)) (k : List Char) (v : Json) :
    List (List Char × Json) :=
  if d.any (fun kv => kv.1 == k) then
    d.map (fun kv => if kv.1 == k then (kv.1, v) else kv)
  else d ++ [(k, v)]

/-- The dict produced by `json.loads` for an object literal. -/
def pyDict (kvs : List (List Char × Json)) : List (List Char × Json) :=
  kvs.foldl (fun d kv => pyDictIns d kv.1 kv.2) []

/-- `obj.get(k)` on that dict. -/
def jdictGet (kvs : List (List Char × Json)) (k : List Char) : Option Json :=
  ((pyDict kvs).find? (fun kv => kv.1 == k)).map (fun kv => kv.2)

/-- Element-wise string decoding of a JSON array (for `depends`). -/
def decodeStrList : List Json → Option (List (List Char))
  | [] => some []
  | Json.str s :: rest => (decodeStrList rest).map (fun l => s :: l)
  | _ => none

/-- Keys accepted by `Package(**args)`. -/
def allowedKey (k : List Char) : Bool :=
  k == "name".data || k == "version".data || k == "depends".data ||
  k == "external".data || k == "arch".data

/-- Model of `Package(**obj.get('args'))` during replay: the args must be a
JSON object whose keys are exactly the dataclass fields (`name`, `version`,
`depends` required; `external` and `arch` optional with defaults `false` and
`"any"`); an unknown or missing key is a `TypeError`, as for any Python
call with bad keyword arguments.  (The Python dataclass performs no runtime
type validation of the field values; the model restricts the values to the
schema types of §6, which is what every record written by the WAL itself
contains.) -/
def decodePackage : Option Json → Except Err Package
  | some (Json.obj kvs) =>
    if (pyDict kvs).all (fun kv => allowedKey kv.1) then
      match jdictGet kvs "name".data, jdictGet kvs "version".data,
            jdictGet kvs "depends".data with
      | some (Json.str nm), some (Json.str ver), some (Json.arr ds) =>
        match decodeStrList ds with
        | none => .error .typeError
        | some deps =>
          match jdictGet kvs "external".data, jdictGet kvs "arch".data with
          | none, none => .ok ⟨nm, ver, deps, false, "any".data⟩
          | some (Json.bool b), none => .ok ⟨nm, ver, deps, b, "any".data⟩
          | none, some (Json.str a) => .ok ⟨nm, ver, deps, false, a⟩
          | some (Json.bool b), some (Json.str a) => .ok ⟨nm, ver, deps, b, a⟩
          | _, _ => .error .typeError
      | _, _, _ => .error .typeError
    else .error .typeError
  | _ => .error .typeError

/-- The body of `WAL.play`'s loop for a single line: decode it with
`json.loads` (failure is fatal), require a dict (`obj.get` would raise
`AttributeError` otherwise), dispatch on `obj.get('op')` — `None` (key absent
or literal `null`) raises `RuntimeError('Corrupted WAL: missing op.')`,
`'add-package'` and `'update-package'` decode the args and run the mutation
(whose own exception aborts the replay), and ANY OTHER op value is merely
logged with `logger.warn` and ignored. -/
def playStep (st : State) (line : List Char) : Except Err State :=
  match jsonParse line with
  | none => .error .jsonInvalid
  | some (Json.obj kvs) =>
    match jdictGet kvs "op".data with
    | none => .error .walCorruptMissingOp
    | some Json.null => .error .walCorruptMissingOp
    | some (Json.str op) =>
      if op == "add-package".data then
        match decodePackage (jdictGet kvs "args".data) with
        | .error e => .error e
        | .ok p => st.add_package p
      else if op == "update-package".data then
        match decodePackage (jdictGet kvs "args".data) with
        | .error e => .error e
        | .ok p => st.update_package p
      else .ok st
    | some _ => .ok st
  | some _ => .error .attributeError

/-- Fold `playStep` over the lines of the file. -/
def playLines (st : State) : List (List Char) → Except Err State
  | [] => .ok st
  | l :: ls =>
    match playStep st l with
    | .error e => .error e
    | .ok st2 => playLines st2 ls

/-- Python file iteration (`for line in fp`): each yielded line keeps its
terminating `'\n'`; a final segment with no terminator is still yielded.
The accumulator holds the current line reversed. -/
def pyFileLinesAux : List Char → List Char → List (List Char)
  | [], acc => if acc = [] then [] else [acc.reverse]
  | c :: cs, acc =>
    if c = '\n' then (acc.reverse ++ ['\n']) :: pyFileLinesAux cs []
    else pyFileLinesAux cs (c :: acc)

/-- The lines of the log file body (the bytes after the 8-byte magic). -/
def pyFileLines (cs : List Char) : List (List Char) := pyFileLinesAux cs []

/-! ## WAL (`src/alai/wal.py` lines 128–229) -/

/-- The `mode` literal of the `WAL` dataclass. -/
inductive Mode
  | modeInit
  | replaying
  | ready
deriving DecidableEq, Repr

/-- The `WAL` dataclass: the file body after the magic (`content`), the
in-memory `State`, and the mode, whose dataclass default is `'init'`.
The file handle itself is abstracted into `content`. -/
structure WAL where
  content : List Char
  state : State := {}
  mode : Mode := Mode.modeInit
deriving DecidableEq, Repr

/-- The JSON form of `asdict(package)` (dataclass field order). -/
def packageJson (p : Package) : Json :=
  Json.obj [("name".data, Json.str p.name), ("version".data, Json.str p.version),
            ("depends".data, Json.arr (p.depends.map Json.str)),
            ("external".data, Json.bool p.external),
            ("arch".data, Json.str p.arch)]

/-- `WAL.append` (lines 184–191): a no-op unless the mode is `'ready'`;
otherwise encode `{op, args}` compactly and write it plus a `'\n'`. -/
def WAL.append (w : WAL) (op : List Char) (args : Json) : WAL :=
  if w.mode = Mode.ready then
    { w with content := w.content ++
        jsonDumps (Json.obj [("op".data, Json.str op), ("args".data, args)]) ++ ['\n'] }
  else w

/-- `WAL.add_package` (lines 193–204): mutate the state, then append the
record (the append silently does nothing outside `'ready'` mode). -/
def WAL.add_package (w : WAL) (p : Package) : Except Err WAL :=
  match w.state.add_package p with
  | .error e => .error e
  | .ok st => .ok (WAL.append { w with state := st } "add-package".data (packageJson p))

/-- `WAL.update_package` (lines 206–226), layered the same way. -/
def WAL.update_package (w : WAL) (p : Package) : Except Err WAL :=
  match w.state.update_package p with
  | .error e => .error e
  | .ok st => .ok (WAL.append { w with state := st } "update-package".data (packageJson p))

/-- `WAL.get` (lines 228–229). -/
def WAL.get (w : WAL) (name : List Char) : Option Package :=
  plookup w.state.packages name

/-- `WAL.play` (lines 164–182): set mode `'replaying'`, apply every line of
the file (append suppressed), set mode `'ready'`, and finally set
`state.revision` to the number of lines enumerated. -/
def WAL.play (w : WAL) : Except Err WAL :=
  let lines := pyFileLines w.content
  match playLines w.state lines with
  | .error e => .error e
  | .ok st =>
    .ok { w with state := { st with revision := (lines.length : Int) },
                 mode := Mode.ready }

/-- `WAL.open` on a path that does not yet exist (lines 151–155): write the
magic and return a fresh `WAL` — whose dataclass `mode` default is `'init'`,
so that `append` is a no-op on it. -/
def WAL.openFresh : WAL := { content := [] }

/-- `WAL.open` on an existing file (lines 144–150): after the magic check the
remaining bytes are replayed.  (A wrong magic, not modelled here, raises
before any state exists.) -/
def WAL.openExisting (content : List Char) : Except Err WAL :=
  WAL.play { content := content }

/-- Whether some OTHER package's depends list contains `name` (the
`DependencyHeld` precondition of spec §4.D). -/
def dependedOnByOther (ps : List (List Char × Package)) (name : List Char) : Bool :=
  ps.any (fun pr => !(pr.1 == name) && pr.2.depends.any (fun d => d == name))

/-- The log line of a `remove-package` record per spec §6. -/
def removeLine (name : List Char) : List Char :=
  jsonDumps (Json.obj [("op".data, Json.str "remove-package".data),
    ("args".data, Json.obj [("name".data, Json.str name)])]) ++ ['\n']

/-- Modelled from the spec: `WAL.remove_package` does not exist in
`src/alai/wal.py`; only its caller `src/alai/cli/remove_package.py` invokes
it (the call would raise `AttributeError`).  Modelled from spec §4.D:
preconditions `name ∈ State` and that no other package's depends list
contains `name`; on success delete the entry and append a
`remove-package` record with args `{name}`; otherwise fail with `NotFound`
or `DependencyHeld`, leaving the state untouched. -/
def WAL.remove_package (w : WAL) (name : List Char) : Except Err WAL :=
  match plookup w.state.packages name with
  | none => .error .notFound
  | some _ =>
    if dependedOnByOther w.state.packages name then
      .error .dependencyHeld
    else
      .ok { w with
            state := { w.state with
                       packages := w.state.packages.filter (fun pr => !(pr.1 == name)) },
            content := w.content ++ removeLine name }

/-- A user-facing WAL mutation (the two that exist in the source). -/
inductive MutOp
  | add (p : Package)
  | update (p : Package)
deriving Repr

/-- Apply one mutation. -/
def WAL.applyOp (w : WAL) : MutOp → Except Err WAL
  | .add p => w.add_package p
  | .update p => w.update_package p

/-- Apply a sequence of mutations, stopping at the first exception. -/
def WAL.applyAll (w : WAL) : List MutOp → Except Err WAL
  | [] => .ok w
  | o :: os =>
    match w.applyOp o with
    | .error e => .error e
    | .ok w2 => w2.applyAll os

/-! ## Dependency graph (`src/alai/graph.py` lines 98–124) -/

/-- `Graph`: node names and the `links` dict.  (`nodes` maps names to package
records in the source; only the key list is ever used by `inverse_edges` and
`subgraph_of`, and `inverse_edges` itself rebuilds the graph with a bare key
list, so the model keeps names only.) -/
structure Graph where
  nodes : List (List Char)
  links : List (List Char × List (List Char))
deriving Repr

/-- `graph.links.get(src)`. -/
def glookup (links : List (List Char × List (List Char))) (k : List Char) :
    Option (List (List Char)) :=
  (links.find? (fun pr => pr.1 == k)).map (fun pr => pr.2)

/-- `links.setdefault`-style edge insertion used by `inverse_edges`: create
the key at the end on first sight, then append to its list. -/
def addInvEdge (links : List (List Char × List (List Char)))
    (dst src : List Char) : List (List Char × List (List Char)) :=
  if links.any (fun pr => pr.1 == dst) then
    links.map (fun pr => if pr.1 == dst then (pr.1, pr.2 ++ [src]) else pr)
  else links ++ [(dst, [src])]

/-- The queue loop of `inverse_edges` (lines 99–106): for every node `src` in
order, append `src` to the inverse adjacency of each of its targets. -/
def invLoop (links : List (List Char × List (List Char))) :
    List (List Char) → List (List Char × List (List Char)) →
    List (List Char × List (List Char))
  | [], acc => acc
  | src :: queue, acc =>
    invLoop links queue
      (((glookup links src).getD []).foldl (fun l dst => addInvEdge l dst src) acc)

/-- The inverse adjacency dict built by `inverse_edges`. -/
def inverseLinks (g : Graph) : List (List Char × List (List Char)) :=
  invLoop g.links g.nodes []

/-- `inverse_edges` (lines 98–108) including its leftover debug statement
`print(links['python-numpy'])` (line 107), which raises `KeyError` whenever
`'python-numpy'` has no inverse edges — e.g. on any graph that does not
contain that package.  The error value models that `KeyError`. -/
def inverse_edges (g : Graph) : Except Unit Graph :=
  let links := inverseLinks g
  match glookup links "python-numpy".data with
  | none => .error ()
  | some _ => .ok { nodes := g.nodes, links := links }

/-- `effects.get(src, 0)`-style lookup. -/
def elookup (effects : List (List Char × Nat)) (k : List Char) : Option Nat :=
  (effects.find? (fun pr => pr.1 == k)).map (fun pr => pr.2)

/-- `effects[src] = v` on the insertion-ordered dict. -/
def eset (effects : List (List Char × Nat)) (k : List Char) (v : Nat) :
    List (List Char × Nat) :=
  if effects.any (fun pr => pr.1 == k) then
    effects.map (fun pr => if pr.1 == k then (pr.1, v) else pr)
  else effects ++ [(k, v)]

/-- The BFS loop of `subgraph_of` (lines 114–118): pop the front of the
queue, record `max(depth, effects.get(src, 0))`, and push the successors at
`depth + 1`.  The Python loop terminates only because the explored paths are
finite; the model makes that explicit with fuel (`none` = still running). -/
def bfsLoop (links : List (List Char × List (List Char))) :
    Nat → List (List Char × Nat) → List (List Char × Nat) →
    Option (List (List Char × Nat))
  | 0, _, _ => none
  | _ + 1, [], effects => some effects
  | fuel + 1, (src, depth) :: queue, effects =>
    let effects := eset effects src (max depth ((elookup effects src).getD 0))
    bfsLoop links fuel
      (queue ++ ((glookup links src).getD []).map (fun x => (x, depth + 1)))
      effects

/-- Insertion into a lexicographically sorted list of strings. -/
def insertSorted (x : List Char) : List (List Char) → List (List Char)
  | [] => [x]
  | y :: ys => if pyStrLt x y || x == y then x :: y :: ys else y :: insertSorted x ys

/-- Python `sorted` on a list of strings. -/
def sortStrs (xs : List (List Char)) : List (List Char) :=
  xs.foldr insertSorted []

/-- `subgraph_of` (lines 111–124): run the BFS, take the maximum recorded
depth, bucket the nodes by depth, and sort each bucket. -/
def subgraph_of (g : Graph) (origin : List Char) (fuel : Nat) :
    Option (List (List (List Char))) :=
  match bfsLoop g.links fuel [(origin, 0)] [] with
  | none => none
  | some effects =>
    let maxDepth := effects.foldl (fun m pr => max m pr.2) 0
    some ((List.range (maxDepth + 1)).map
      (fun k => sortStrs ((effects.filter (fun pr => pr.2 == k)).map (fun pr => pr.1))))

/-! ## Exporter failure handling (`export_database`, lines 241–309)

The claim under test concerns only which failures occur and whether the
output archive file is left behind, so the model tracks the output
directory's file listing and the per-package checks in source order:
`output_dir.mkdir(...)` then `tarfile.open(path, 'w:gz')` CREATES the output
file before any package is examined; for each non-external package (state
insertion order) `pkg_path.stat()` raises `FileNotFoundError` when the
`.pkg.tar.zst` file is absent, and the zstd/tar reading of a present but
corrupt file raises.  Either exception propagates out of the `with` block;
nothing deletes the already-created (partially written) archive.  The desc
stanzas, digests and tar bytes are not modelled. -/

/-- A package file on disk, as far as the exporter's checks observe it. -/
inductive PkgFile
  | valid (isize : Nat)
  | corrupt
deriving DecidableEq, Repr

/-- Exporter failure kinds of §4.H. -/
inductive ExportErr
  | packageFileMissing
  | innerArchiveCorrupt
deriving DecidableEq, Repr

/-- `f'{pkg.name}-{pkg.version}-{pkg.arch}.pkg.tar.zst'`. -/
def pkgFileName (p : Package) : List Char :=
  p.name ++ '-' :: p.version ++ '-' :: p.arch ++ ".pkg.tar.zst".data

/-- The per-package loop: first failing check aborts the export. -/
def exportLoop (packageDir : List (List Char × PkgFile)) :
    List Package → Option ExportErr
  | [] => none
  | p :: ps =>
    match (packageDir.find? (fun pr => pr.1 == pkgFileName p)).map (fun pr => pr.2) with
    | none => some .packageFileMissing
    | some PkgFile.corrupt => some .innerArchiveCorrupt
    | some (PkgFile.valid _) => exportLoop packageDir ps

/-- `export_database`: returns the outcome together with the output
directory's file listing afterwards.  The output archive path is added to the
listing BEFORE the loop runs, because `tarfile.open(path, 'w:gz')` creates
the file up front; it is never removed on failure. -/
def export_database (w : WAL) (packageDir : List (List Char × PkgFile))
    (outFiles : List (List Char)) (name : List Char) :
    Except ExportErr (List Char) × List (List Char) :=
  let path := name ++ "-r".data ++ intRepr w.state.revision ++ ".db.tar.gz".data
  let outFiles := outFiles ++ [path]
  let nonExternal := (w.state.packages.map (fun pr => pr.2)).filter (fun p => !p.external)
  match exportLoop packageDir nonExternal with
  | some e => (.error e, outFiles)
  | none => (.ok path, outFiles)

end Alai

namespace Alai

/-! ## Concrete sample data used by the claim theorems -/

/-- `Package('a', '1.0-1', [])`. -/
def pkgA : Package := { name := "a".data, version := "1.0-1".data, depends := [] }

/-- `Package('a', '1.0-2', [])`. -/
def pkgA12 : Package := { name := "a".data, version := "1.0-2".data, depends := [] }

/-- `Package('a', '2.0-1', [])`. -/
def pkgA20 : Package := { name := "a".data, version := "2.0-1".data, depends := [] }

/-- `Package('b', '1.0-1', [])`. -/
def pkgB : Package := { name := "b".data, version := "1.0-1".data, depends := [] }

/-- The log line `WAL.append` writes for `add-package` of `p`. -/
def addLine (p : Package) : List Char :=
  jsonDumps (Json.obj [("op".data, Json.str "add-package".data),
                       ("args".data, packageJson p)]) ++ ['\n']

/-- A syntactically valid record line whose op is not in the log vocabulary. -/
def unknownOpLine : List Char :=
  jsonDumps (Json.obj [("op".data, Json.str "frobnicate".data),
                       ("args".data, Json.obj [])]) ++ ['\n']

/-- The dependency state of spec §8 scenario 4:
`root→[a,b], a→[c], b→[c], c→[]`. -/
def sampleGraph : Graph :=
  { nodes := ["root".data, "a".data, "b".data, "c".data],
    links := [("root".data, ["a".data, "b".data]),
              ("a".data, ["c".data]),
              ("b".data, ["c".data]),
              ("c".data, ([] : List (List Char)))] }

/-- A WAL in `'ready'` mode holding exactly the non-external package `a`. -/
def walReady : WAL :=
  { content := [], state := { revision := 1, packages := [(pkgA.name, pkgA)] },
    mode := Mode.ready }

/-- A WAL holding just package `b`. -/
def walB : WAL :=
  { content := [], state := { revision := 0, packages := [(pkgB.name, pkgB)] } }

/-- A WAL holding `b` then `a` (the result of adding `a` to `walB`). -/
def walBA : WAL :=
  { content := [],
    state := { revision := 0, packages := [(pkgB.name, pkgB), (pkgA.name, pkgA)] } }

end Alai

namespace Alai

/-- Invariants (1) and (2) of spec §3 on a `State`: every dependency of every
stored package is itself stored, and no two entries share a name. -/
def goodState (st : State) : Prop :=
  (∀ pr ∈ st.packages, ∀ d ∈ pr.2.depends, (plookup st.packages d).isSome) ∧
  (st.packages.map (fun pr => pr.1)).Nodup

instance goodStateDecidable (st : State) : Decidable (goodState st) := by
  unfold goodState
  infer_instance

/-- A dot-separated token in canonical form: if Python `int()` accepts it, it
is spelled exactly as `str` re-renders the value (no leading zeros, sign,
underscores or surrounding whitespace); non-integer tokens are unrestricted
(they are stored and re-rendered verbatim). -/
def canonChunk (cs : List Char) : Bool :=
  match pyIntParse cs with
  | some n => cs == intRepr n
  | none => true

/-- Canonical form of the part after the optional epoch:
`c1.c2.….cn-release` with a canonically spelled positive release and
canonical tokens. -/
def canonBody (cs : List Char) : Bool :=
  match splitFirst '-' cs with
  | none => false
  | some (up, rel) =>
    match pyIntParse rel with
    | none => false
    | some r => decide (0 < r) && rel == intRepr r && (splitAll '.' up).all canonChunk

/-- Canonical version strings: an optional canonically spelled NONZERO epoch
prefix, then a canonical body.  (`parse` also accepts non-canonical spellings
such as `0:1.0-1` or `1.01-1`; those re-render canonically and are exactly
the round-trip failures.) -/
def canonVersionChars (cs : List Char) : Bool :=
  match splitFirst ':' cs with
  | some (pre, post) =>
    match pyIntParse pre with
    | none => false
    | some e => !(e == 0) && pre == intRepr e && canonBody post
  | none => canonBody cs

/-- Decidable equality for `Except` results (both components decidable). -/
instance instDecEqExcept {ε α : Type} [DecidableEq ε] [DecidableEq α] :
    DecidableEq (Except ε α) := fun a b =>
  match a, b with
  | .error e1, .error e2 =>
    if h : e1 = e2 then isTrue (by rw [h]) else isFalse (fun hh => by cases hh; exact h rfl)
  | .ok v1, .ok v2 =>
    if h : v1 = v2 then isTrue (by rw [h]) else isFalse (fun hh => by cases hh; exact h rfl)
  | .error _, .ok _ => isFalse (fun hh => by cases hh)
  | .ok _, .error _ => isFalse (fun hh => by cases hh)

/-! ## Claim theorems (concrete divergences) -/

/-- C1: the claim says that for a WAL opened on a fresh file, executing valid
operations, closing and re-opening replays the log back to an equal `State`.
On the code this fails already for the single operation `add_package(pkgA)`:
a freshly created WAL keeps the dataclass default mode `'init'` forever (only
`play` ever sets `'ready'`), so `append` silently drops every record — the
file body stays empty — and re-opening replays an empty log, producing the
empty `State` instead of the executed one. -/
theorem C1_fresh_wal_replay_loses_state :
    WAL.openFresh.applyAll [MutOp.add pkgA] =
      .ok { content := [],
            state := { revision := 0, packages := [(pkgA.name, pkgA)] },
            mode := Mode.modeInit } ∧
    WAL.openExisting [] =
      .ok { content := [], state := { revision := 0, packages := [] },
            mode := Mode.ready } ∧
    ({ revision := 0, packages := [(pkgA.name, pkgA)] } : State) ≠
      { revision := 0, packages := [] } := by
  refine ⟨by decide, by decide, by decide⟩

/-- C2 counterexample: one successfully applied mutation on a fresh WAL
leaves `revision = 0`, not `1`; no mutation ever advances `revision`
(only `play` assigns it), so invariant (3) of §3 fails on the live path. -/
theorem C2_revision_invariant_fails :
    (WAL.openFresh.applyAll [MutOp.add pkgA]).map (fun w => w.state.revision) =
      .ok 0 ∧ (0 : Int) ≠ 1 := by
  refine ⟨by decide, by decide⟩

/-- C3: the claim describes a total order with the mixed rule
`parse("1.0-1") < parse("1.a-1")` and epoch-first comparison.  The code (a)
raises `TypeError` on the mixed comparison — Python tuple `<` has no
int-versus-str case — and (b) falls through to the components when
`self.epoch < that.epoch` is false, so `2:1.0-1 < 1:2.0-1` evaluates to
`True` even though the left epoch is greater. -/
theorem C3_version_order_divergence :
    (versionFromChars "1.0-1".data).bind
        (fun a => (versionFromChars "1.a-1".data).map (fun b => versionLt a b)) =
      some (.error .typeError) ∧
    (versionFromChars "2:1.0-1".data).bind
        (fun a => (versionFromChars "1:2.0-1".data).map (fun b => versionLt a b)) =
      some (.ok true) := by
  refine ⟨by decide, by decide⟩

/-- C4: the claim says an update to a version strictly greater under the §3
ordering succeeds.  With stored version `1.0-2`, updating to `2.0-1`
(strictly greater per §3: components `(2,0) > (1,0)`) fails with
`VersionNotStrictlyIncreasing`, because `prev_ver >= next_ver` is evaluated
via the buggy `__lt__`: components `(2,0) < (1,0)` is `False`, so the result
is the release comparison `1 < 2`, making the code believe
`2.0-1 < 1.0-2`.  The second conjunct exhibits that comparison. -/
theorem C4_update_rejects_greater_version :
    ((WAL.openExisting []).bind (fun w => w.add_package pkgA12)).bind
        (fun w => w.update_package pkgA20) =
      .error .versionNotStrictlyIncreasing ∧
    versionLe ⟨[.int 2, .int 0], 1, none⟩ ⟨[.int 1, .int 0], 2, none⟩ =
      .ok true := by
  refine ⟨by decide, by decide⟩

/-- C6 counterexample: a record with an unknown op (`"frobnicate"`) does NOT
abort the replay — `play` merely logs a warning and continues, and the bogus
record is even counted by `revision`.  The claim requires `WalCorrupt`. -/
theorem C6_unknown_op_not_fatal :
    WAL.openExisting (addLine pkgA ++ unknownOpLine) =
      .ok { content := addLine pkgA ++ unknownOpLine,
            state := { revision := 2, packages := [(pkgA.name, pkgA)] },
            mode := Mode.ready } := by decide

/-- C7: on the §8 scenario-4 state, `layers(inverse(G), "c")` does not return
at all: `inverse_edges` ends with the leftover debug statement
`print(links['python-numpy'])`, which raises `KeyError` because the graph has
no `python-numpy` node.  With only that debug lookup removed, the rest of the
code does produce exactly `[{c}, {a,b}, {root}]` (second conjunct). -/
theorem C7_layers_keyerror_divergence :
    inverse_edges sampleGraph = .error () ∧
    subgraph_of { nodes := sampleGraph.nodes, links := inverseLinks sampleGraph }
        "c".data 50 =
      some [["c".data], ["a".data, "b".data], ["root".data]] := by
  refine ⟨rfl, by decide⟩

/-- C8 counterexample: the claim asserts `render(parse(s)) = s` for every
accepted string, "including strings with an explicit epoch prefix such as
`0:1.0-1`".  `parse("0:1.0-1")` yields epoch `0`, and `__str__` tests the
epoch for TRUTHINESS (`if self.epoch:`), so the zero epoch is dropped and the
version re-renders as `1.0-1`. -/
theorem C8_epoch_zero_breaks_roundtrip :
    (versionFromChars "0:1.0-1".data).map versionRender = some "1.0-1".data ∧
    "1.0-1".data ≠ "0:1.0-1".data := by
  refine ⟨by decide, by decide⟩

/-- C9: the claim says a failed export leaves no partial output file behind.
The code opens the output archive `{name}-r{revision}.db.tar.gz` for writing
BEFORE examining any package file, and no error path removes it: on
`PackageFileMissing` (no `.pkg.tar.zst` for package `a`) and on
`InnerArchiveCorrupt` (present but undecodable file) the export aborts with
the partially written archive still sitting in the output directory. -/
theorem C9_export_failure_leaves_partial_file :
    (export_database walReady [] [] "test".data).1 = .error .packageFileMissing ∧
    (export_database walReady [] [] "test".data).2 = ["test-r1.db.tar.gz".data] ∧
    (export_database walReady [(pkgFileName pkgA, PkgFile.corrupt)] []
        "test".data).1 = .error .innerArchiveCorrupt ∧
    (export_database walReady [(pkgFileName pkgA, PkgFile.corrupt)] []
        "test".data).2 = ["test-r1.db.tar.gz".data] := by
  refine ⟨by decide, by decide, by decide, by decide⟩

end Alai

namespace Alai

/-! ## Dictionary lemmas -/

/-- Appending entries cannot hide an existing key. -/
theorem plookup_append_isSome (ps qs : List (List Char × Package)) (k : List Char)
    (h : (plookup ps k).isSome = true) : (plookup (ps ++ qs) k).isSome = true := by
  induction ps with
  | nil => simp [plookup] at h
  | cons hd tl ih =>
    cases hk : hd.1 == k <;> simp_all [plookup]

/-- Appending an entry with a different key does not change a lookup. -/
theorem plookup_append_ne (ps : List (List Char × Package)) (nm k : List Char)
    (p : Package) (h : k ≠ nm) : plookup (ps ++ [(nm, p)]) k = plookup ps k := by
  induction ps with
  | nil =>
    have : (nm == k) = false := by simp [Ne.symm h]
    simp [plookup, this]
  | cons hd tl ih =>
    cases hk : hd.1 == k <;> simp_all [plookup]

/-- Replacing the value at one key preserves which keys are present. -/
theorem plookup_replacePkg_isSome (ps : List (List Char × Package))
    (nm : List Char) (p : Package) (k : List Char) :
    (plookup (replacePkg ps nm p) k).isSome = (plookup ps k).isSome := by
  induction ps with
  | nil => simp [plookup, replacePkg]
  | cons hd tl ih =>
    have hkey : (if hd.1 == nm then (hd.1, p) else hd).1 = hd.1 := by
      cases h2 : hd.1 == nm <;> simp
    cases hk : hd.1 == k <;>
      simp_all [plookup, replacePkg, hkey]

/-- Replacing the value at a DIFFERENT key does not change a lookup. -/
theorem plookup_replacePkg_ne (ps : List (List Char × Package))
    (nm : List Char) (p : Package) (k : List Char) (h : k ≠ nm) :
    plookup (replacePkg ps nm p) k = plookup ps k := by
  induction ps with
  | nil => simp [plookup, replacePkg]
  | cons hd tl ih =>
    cases hk : hd.1 == k with
    | true =>
      have hk' : hd.1 = k := eq_of_beq hk
      have h2 : (hd.1 == nm) = false := by
        rw [hk']; exact beq_eq_false_iff_ne.mpr h
      simp [replacePkg, plookup, h2, hk]
    | false =>
      cases h2 : hd.1 == nm <;>
        simp_all [replacePkg, plookup]

/-- Replacing a value keeps the key sequence. -/
theorem replacePkg_keys (ps : List (List Char × Package))
    (nm : List Char) (p : Package) :
    (replacePkg ps nm p).map (fun pr => pr.1) = ps.map (fun pr => pr.1) := by
  unfold replacePkg
  rw [List.map_map]
  apply List.map_congr_left
  intro pr _
  by_cases h2 : (pr.1 == nm) = true <;> simp [Function.comp, h2]

/-- A key is absent from the dict exactly when no entry carries it. -/
theorem plookup_eq_none_iff (ps : List (List Char × Package)) (k : List Char) :
    plookup ps k = none ↔ k ∉ ps.map (fun pr => pr.1) := by
  induction ps with
  | nil => simp [plookup]
  | cons hd tl ih =>
    cases hk : hd.1 == k with
    | true =>
      have he : hd.1 = k := eq_of_beq hk
      have hl : plookup (hd :: tl) k = some hd.2 := by
        unfold plookup
        rw [hk]
        simp
      rw [hl, List.map_cons]
      constructor
      · intro hcon
        exact absurd hcon (Option.some_ne_none _)
      · intro hcon
        exact absurd
          (show k ∈ hd.1 :: tl.map (fun pr => pr.1) by
            rw [← he]; exact List.mem_cons_self _ _) hcon
    | false =>
      have he : hd.1 ≠ k := by
        intro hcon
        rw [hcon] at hk
        simp at hk
      have hl : plookup (hd :: tl) k = plookup tl k := by
        show (if hd.1 == k then some hd.2 else plookup tl k) = plookup tl k
        rw [hk]
        simp
      rw [hl, List.map_cons, ih]
      constructor
      · intro hcon hmem
        rcases List.mem_cons.mp hmem with h1 | h2
        · exact he h1.symm
        · exact hcon h2
      · intro hcon hmem
        exact hcon (List.mem_cons_of_mem _ hmem)

/-- A successful dependency scan means every dependency is present. -/
theorem depscan_ok (ps : List (List Char × Package)) (deps : List (List Char))
    (h : deps.find? (fun d => (plookup ps d).isNone) = none) :
    ∀ d ∈ deps, (plookup ps d).isSome = true := by
  intro d hd
  have := List.find?_eq_none.mp h d hd
  cases hpd : plookup ps d with
  | none => rw [hpd] at this; simp at this
  | some v => simp

/-! ## Shape of successful mutations -/

/-- What a successful `add_package` did to the state: the name was absent,
every dependency present, and the new entry went to the end of the dict;
`revision` is untouched. -/
theorem State.add_package_ok (st : State) (p : Package) (st' : State)
    (h : st.add_package p = .ok st') :
    plookup st.packages p.name = none ∧
    (∀ d ∈ p.depends, (plookup st.packages d).isSome = true) ∧
    st' = { st with packages := st.packages ++ [(p.name, p)] } := by
  unfold State.add_package at h
  split at h
  · cases h
  · next habs =>
    split at h
    · cases h
    · next hdep =>
      cases h
      refine ⟨?_, depscan_ok _ _ hdep, rfl⟩
      cases hp : plookup st.packages p.name with
      | none => rfl
      | some v => rw [hp] at habs; simp at habs

/-- What a successful `update_package` did to the state: the name was
present, every dependency present, and the entry was replaced in place;
`revision` is untouched. -/
theorem State.update_package_ok (st : State) (p : Package) (st' : State)
    (h : st.update_package p = .ok st') :
    (plookup st.packages p.name).isSome = true ∧
    (∀ d ∈ p.depends, (plookup st.packages d).isSome = true) ∧
    st' = { st with packages := replacePkg st.packages p.name p } := by
  unfold State.update_package at h
  split at h
  · cases h
  · next prev hprev =>
    split at h
    · cases h
    · next pv hpv =>
      split at h
      · cases h
      · next nv hnv =>
        split at h
        · cases h
        · cases h
        · next hle =>
          split at h
          · cases h
          · next hdep =>
            cases h
            exact ⟨by rw [hprev]; rfl, depscan_ok _ _ hdep, rfl⟩

/-- `WAL.append` never changes the in-memory state. -/
theorem WAL.append_state (w : WAL) (op : List Char) (args : Json) :
    (WAL.append w op args).state = w.state := by
  unfold WAL.append
  split <;> rfl

/-- A successful WAL mutation is exactly the corresponding state mutation as
far as the state is concerned. -/
theorem WAL.applyOp_state (w : WAL) (o : MutOp) (w' : WAL)
    (h : w.applyOp o = .ok w') :
    (∃ p, o = .add p ∧ w.state.add_package p = .ok w'.state) ∨
    (∃ p, o = .update p ∧ w.state.update_package p = .ok w'.state) := by
  cases o with
  | add p =>
    left
    refine ⟨p, rfl, ?_⟩
    simp only [WAL.applyOp, WAL.add_package] at h
    cases hst : w.state.add_package p with
    | error e => rw [hst] at h; cases h
    | ok st => rw [hst] at h; cases h; rw [WAL.append_state]
  | update p =>
    right
    refine ⟨p, rfl, ?_⟩
    simp only [WAL.applyOp, WAL.update_package] at h
    cases hst : w.state.update_package p with
    | error e => rw [hst] at h; cases h
    | ok st => rw [hst] at h; cases h; rw [WAL.append_state]

/-- One successful mutation preserves invariants (1)–(2) and never touches
`revision`. -/
theorem applyOp_good (w : WAL) (o : MutOp) (w' : WAL)
    (hg : goodState w.state) (h : w.applyOp o = .ok w') :
    goodState w'.state ∧ w'.state.revision = w.state.revision := by
  obtain ⟨hclosed, hnodup⟩ := hg
  rcases WAL.applyOp_state w o w' h with ⟨p, _, hok⟩ | ⟨p, _, hok⟩
  · obtain ⟨habs, hdeps, hst⟩ := State.add_package_ok _ _ _ hok
    rw [hst]
    refine ⟨⟨?_, ?_⟩, rfl⟩
    · intro pr hpr d hd
      rcases List.mem_append.mp hpr with hmem | hmem
      · exact plookup_append_isSome _ _ _ (hclosed pr hmem d hd)
      · have : pr = (p.name, p) := by simpa using hmem
        subst this
        exact plookup_append_isSome _ _ _ (hdeps d hd)
    · have habs' : p.name ∉ w.state.packages.map (fun pr => pr.1) :=
        (plookup_eq_none_iff _ _).mp habs
      simp [List.nodup_append, habs']
      exact hnodup
  · obtain ⟨hpres, hdeps, hst⟩ := State.update_package_ok _ _ _ hok
    rw [hst]
    refine ⟨⟨?_, ?_⟩, rfl⟩
    · intro pr hpr d hd
      rw [plookup_replacePkg_isSome]
      rcases List.mem_map.mp hpr with ⟨pr0, hpr0, hf⟩
      by_cases hcase : (pr0.1 == p.name) = true
      · rw [if_pos hcase] at hf
        have : pr.2 = p := by rw [← hf]
        rw [this] at hd
        exact hdeps d hd
      · rw [if_neg hcase] at hf
        subst hf
        exact hclosed pr0 hpr0 d hd
    · rw [replacePkg_keys]
      exact hnodup

end Alai

namespace Alai

/-! ## Claim theorems (inductive properties) -/

/-- C2 (amended): after any sequence of successful WAL mutations from a state
satisfying invariants (1)–(2), invariants (1) (dependency-closure) and (2)
(unique names) still hold, and `revision` is exactly what it was before the
sequence — mutations never advance it (only `play` assigns it), which is why
invariant (3) fails on the live path. -/
theorem C2_invariants_one_two_hold_revision_frozen (w : WAL) (ops : List MutOp)
    (w' : WAL) (hg : goodState w.state) (h : w.applyAll ops = .ok w') :
    goodState w'.state ∧ w'.state.revision = w.state.revision := by
  induction ops generalizing w with
  | nil =>
    simp only [WAL.applyAll] at h
    cases h
    exact ⟨hg, rfl⟩
  | cons o os ih =>
    simp only [WAL.applyAll] at h
    cases happ : w.applyOp o with
    | error e => rw [happ] at h; cases h
    | ok w2 =>
      rw [happ] at h
      obtain ⟨hg2, hrev2⟩ := applyOp_good w o w2 hg happ
      obtain ⟨hg', hrev'⟩ := ih w2 hg2 h
      exact ⟨hg', by rw [hrev', hrev2]⟩

/-- Witness for C2: instantiated at a fresh WAL and the one-element sequence
`[add a]`, whose result was computed concretely. -/
theorem C2_invariants_witness :
    goodState ({ revision := 0, packages := [(pkgA.name, pkgA)] } : State) ∧
    ({ revision := 0, packages := [(pkgA.name, pkgA)] } : State).revision =
      WAL.openFresh.state.revision :=
  C2_invariants_one_two_hold_revision_frozen WAL.openFresh [MutOp.add pkgA]
    { content := [], state := { revision := 0, packages := [(pkgA.name, pkgA)] },
      mode := Mode.modeInit } (by decide) (by decide)

/-- C10: a successful `add_package(p)` or `update_package(p)` changes the
packages map only at key `p.name`: lookups of every other name are
unchanged. -/
theorem C10_mutation_touches_only_its_key (w : WAL) (p : Package) (w' : WAL)
    (h : w.add_package p = .ok w' ∨ w.update_package p = .ok w') :
    ∀ n, n ≠ p.name → plookup w'.state.packages n = plookup w.state.packages n := by
  intro n hn
  cases h with
  | inl ha =>
    have hs : w.state.add_package p = .ok w'.state := by
      simp only [WAL.add_package] at ha
      cases hst : w.state.add_package p with
      | error e => rw [hst] at ha; cases ha
      | ok st => rw [hst] at ha; cases ha; rw [WAL.append_state]
    obtain ⟨_, _, hst⟩ := State.add_package_ok _ _ _ hs
    rw [hst]
    exact plookup_append_ne _ _ _ _ hn
  | inr hu =>
    have hs : w.state.update_package p = .ok w'.state := by
      simp only [WAL.update_package] at hu
      cases hst : w.state.update_package p with
      | error e => rw [hst] at hu; cases hu
      | ok st => rw [hst] at hu; cases hu; rw [WAL.append_state]
    obtain ⟨_, _, hst⟩ := State.update_package_ok _ _ _ hs
    rw [hst]
    exact plookup_replacePkg_ne _ _ _ _ hn

/-- Witness for C10: adding `a` to a WAL holding `b` leaves the lookup of
`b` unchanged. -/
theorem C10_witness :
    plookup walBA.state.packages "b".data = plookup walB.state.packages "b".data :=
  C10_mutation_touches_only_its_key walB pkgA walBA (Or.inl (by decide))
    "b".data (by decide)

/-- C5 (spec-modelled): `remove_package(name)` fails with `NotFound` when the
name is absent; fails with `DependencyHeld` when some OTHER stored package's
depends list contains the name (state untouched in both error cases, which
the `Except` model renders by carrying no state); and otherwise — exactly
when the name is present and no other package depends on it — deletes the
entry and appends a `remove-package` record to the log. -/
theorem C5_remove_package_contract (w : WAL) (name : List Char) :
    (plookup w.state.packages name = none →
      w.remove_package name = .error .notFound) ∧
    ((plookup w.state.packages name).isSome = true →
      dependedOnByOther w.state.packages name = true →
      w.remove_package name = .error .dependencyHeld) ∧
    ((plookup w.state.packages name).isSome = true →
      dependedOnByOther w.state.packages name = false →
      w.remove_package name =
        .ok { w with
              state := { w.state with
                         packages :=
                           w.state.packages.filter (fun pr => !(pr.1 == name)) },
              content := w.content ++ removeLine name }) := by
  refine ⟨?_, ?_, ?_⟩
  · intro h
    unfold WAL.remove_package
    rw [h]
  · intro h hdep
    unfold WAL.remove_package
    cases hp : plookup w.state.packages name with
    | none => rw [hp] at h; simp at h
    | some v => rw [hdep]; simp
  · intro h hdep
    unfold WAL.remove_package
    cases hp : plookup w.state.packages name with
    | none => rw [hp] at h; simp at h
    | some v => rw [hdep]; simp

/-- Witness for C5: removing `a` from a WAL holding `b` and `a` (no package
depends on `a`) deletes the entry and appends the record. -/
theorem C5_remove_package_witness :
    walBA.remove_package "a".data =
      .ok { walBA with
            state := { walBA.state with
                       packages :=
                         walBA.state.packages.filter (fun pr => !(pr.1 == "a".data)) },
            content := walBA.content ++ removeLine "a".data } :=
  (C5_remove_package_contract walBA "a".data).2.2 (by decide) (by decide)

end Alai

namespace Alai

/-! ## Replay policy lemmas (C6) -/

/-- Splitting file bytes into lines distributes over a newline boundary. -/
theorem pyFileLinesAux_append_nl (cs ys : List Char) (acc : List Char) :
    pyFileLinesAux (cs ++ '\n' :: ys) acc =
      pyFileLinesAux (cs ++ ['\n']) acc ++ pyFileLinesAux ys [] := by
  induction cs generalizing acc with
  | nil => simp [pyFileLinesAux]
  | cons c cs ih =>
    by_cases hc : c = '\n' <;> simp [pyFileLinesAux, hc, ih]

/-- A nonempty trailing segment without a newline is yielded as one line. -/
theorem pyFileLinesAux_no_nl (l : List Char) (acc : List Char)
    (hnl : '\n' ∉ l) (hne : acc.reverse ++ l ≠ []) :
    pyFileLinesAux l acc = [acc.reverse ++ l] := by
  induction l generalizing acc with
  | nil =>
    have hacc : ¬ acc = [] := by
      intro h
      apply hne
      rw [h]
      rfl
    simp [pyFileLinesAux, hacc]
  | cons c cs ih =>
    have hc : ¬ c = '\n' := by
      intro h
      subst h
      exact hnl (List.mem_cons_self _ _)
    have hnl' : '\n' ∉ cs := fun h => hnl (List.mem_cons_of_mem _ h)
    have hne' : (c :: acc).reverse ++ cs ≠ [] := by simp
    have hstep := ih (c :: acc) hnl' hne'
    simp [pyFileLinesAux, hc, hstep]

/-- A file whose final record lost its `0x0A` terminator still yields that
partial record as a line: it is NOT dropped. -/
theorem pyFileLines_truncated (body tail : List Char) (hnl : '\n' ∉ tail)
    (hne : tail ≠ []) :
    pyFileLines (body ++ '\n' :: tail) = pyFileLines (body ++ ['\n']) ++ [tail] := by
  unfold pyFileLines
  rw [pyFileLinesAux_append_nl]
  congr 1
  have := pyFileLinesAux_no_nl tail [] hnl (by simpa using hne)
  simpa using this

/-- Replay of concatenated line lists runs the prefix first. -/
theorem playLines_append (st : State) (ls1 ls2 : List (List Char)) (st2 : State)
    (h : playLines st ls1 = .ok st2) :
    playLines st (ls1 ++ ls2) = playLines st2 ls2 := by
  induction ls1 generalizing st with
  | nil =>
    simp only [playLines] at h
    cases h
    rfl
  | cons l ls ih =>
    simp only [playLines] at h
    simp only [List.cons_append, playLines]
    cases hs : playStep st l with
    | error e =>
      rw [hs] at h
      simp at h
    | ok stm =>
      rw [hs] at h
      exact ih stm h

/-- C6 (amended): during replay (i) a line that is not valid JSON is fatal;
(ii) a record without an op (absent key, or the key bound to `null`) is fatal
(`WalCorrupt`); (iii) a record whose operation fails its own precondition is
fatal with that operation's error; (iv) a record with any UNKNOWN op is
silently ignored, leaving the state unchanged — NOT fatal; and (v)–(vi) a
truncated final record lacking its `0x0A` terminator is NOT dropped: the line
splitter still yields it and replay feeds it to the same per-record
processing after the intact prefix. -/
theorem C6_replay_policy_amended :
    (∀ st line, jsonParse line = none → playStep st line = .error .jsonInvalid) ∧
    (∀ st line kvs, jsonParse line = some (Json.obj kvs) →
      jdictGet kvs "op".data = none →
      playStep st line = .error .walCorruptMissingOp) ∧
    (∀ st line kvs p e, jsonParse line = some (Json.obj kvs) →
      jdictGet kvs "op".data = some (Json.str "add-package".data) →
      decodePackage (jdictGet kvs "args".data) = .ok p →
      st.add_package p = .error e →
      playStep st line = .error e) ∧
    (∀ st line kvs s, jsonParse line = some (Json.obj kvs) →
      jdictGet kvs "op".data = some (Json.str s) →
      s ≠ "add-package".data → s ≠ "update-package".data →
      playStep st line = .ok st) ∧
    (∀ body tail, '\n' ∉ tail → tail ≠ [] →
      pyFileLines (body ++ '\n' :: tail) =
        pyFileLines (body ++ ['\n']) ++ [tail]) ∧
    (∀ st ls1 ls2 st2, playLines st ls1 = .ok st2 →
      playLines st (ls1 ++ ls2) = playLines st2 ls2) := by
  refine ⟨?_, ?_, ?_, ?_, pyFileLines_truncated, playLines_append⟩
  · intro st line h
    simp only [playStep, h]
  · intro st line kvs h hop
    simp only [playStep, h, hop]
  · intro st line kvs p e h hop hdec hadd
    simp only [playStep, h, hop, hdec, beq_self_eq_true, if_true]
    exact hadd
  · intro st line kvs s h hop hs1 hs2
    have h1 : (s == "add-package".data) = false := beq_eq_false_iff_ne.mpr hs1
    have h2 : (s == "update-package".data) = false := beq_eq_false_iff_ne.mpr hs2
    simp only [playStep, h, hop, h1, h2, Bool.false_eq_true, if_false]

/-- Witness for C6 (amended): each clause instantiated on a concrete input:
a garbage line, an empty JSON object, a duplicate `add-package` record, the
unknown op `frobnicate`, and the file `q\nz` whose final record `z` is
truncated. -/
theorem C6_replay_policy_witness :
    playStep {} "x".data = .error .jsonInvalid ∧
    playStep {} (jsonDumps (Json.obj [])) = .error .walCorruptMissingOp ∧
    playStep { revision := 0, packages := [(pkgA.name, pkgA)] } (addLine pkgA) =
      .error .duplicate ∧
    playStep {} unknownOpLine = .ok {} ∧
    pyFileLines ("q".data ++ '\n' :: "z".data) =
      pyFileLines ("q".data ++ ['\n']) ++ ["z".data] ∧
    playLines ({} : State) ([unknownOpLine] ++ [unknownOpLine]) =
      playLines ({} : State) [unknownOpLine] :=
  ⟨C6_replay_policy_amended.1 {} "x".data (by rfl),
   C6_replay_policy_amended.2.1 {} (jsonDumps (Json.obj [])) [] (by rfl) (by rfl),
   C6_replay_policy_amended.2.2.1 { revision := 0, packages := [(pkgA.name, pkgA)] }
     (addLine pkgA)
     [("op".data, Json.str "add-package".data), ("args".data, packageJson pkgA)]
     pkgA Err.duplicate (by rfl) (by rfl) (by rfl) (by rfl),
   C6_replay_policy_amended.2.2.2.1 {} unknownOpLine
     [("op".data, Json.str "frobnicate".data), ("args".data, Json.obj [])]
     "frobnicate".data (by rfl) (by rfl) (by decide) (by decide),
   C6_replay_policy_amended.2.2.2.2.1 "q".data "z".data (by decide) (by decide),
   C6_replay_policy_amended.2.2.2.2.2 {} [unknownOpLine] [unknownOpLine] {}
     (by rfl)⟩

end Alai

namespace Alai

/-! ## Round-trip lemmas (C8) -/

/-- Soundness of `splitFirst`: the input is the two parts around the
separator. -/
theorem splitFirst_eq (sep : Char) :
    ∀ (cs a b : List Char), splitFirst sep cs = some (a, b) → cs = a ++ sep :: b := by
  intro cs
  induction cs with
  | nil => intro a b h; cases h
  | cons c cs ih =>
    intro a b h
    by_cases hc : c = sep
    · simp only [splitFirst, hc, if_pos] at h
      cases h
      rw [hc]
      rfl
    · simp only [splitFirst, hc, if_neg, ite_false] at h
      cases hr : splitFirst sep cs with
      | none => rw [hr] at h; cases h
      | some pr =>
        obtain ⟨a2, b2⟩ := pr
        rw [hr] at h
        injection h with h1
        injection h1 with ha hb
        subst ha
        subst hb
        have hrec := ih a2 b2 hr
        rw [List.cons_append, ← hrec]

/-- `splitAll` never returns the empty list. -/
theorem splitAll_ne_nil (sep : Char) (cs : List Char) : splitAll sep cs ≠ [] := by
  cases cs with
  | nil => simp [splitAll]
  | cons c cs =>
    by_cases hc : c = sep
    · simp [splitAll, hc]
    · simp only [splitAll, hc, ite_false]
      cases h : splitAll sep cs <;> simp

/-- Peeling the head character off the first part of a join. -/
theorem joinSep_cons_cons (sep c : Char) (h : List Char) (t : List (List Char)) :
    joinSep sep ((c :: h) :: t) = c :: joinSep sep (h :: t) := by
  cases t <;> simp [joinSep]

/-- Joining the parts of a split restores the original string. -/
theorem joinSep_splitAll (sep : Char) (cs : List Char) :
    joinSep sep (splitAll sep cs) = cs := by
  induction cs with
  | nil => rfl
  | cons c cs ih =>
    by_cases hc : c = sep
    · subst hc
      obtain ⟨h, t, hht⟩ := List.exists_cons_of_ne_nil (splitAll_ne_nil c cs)
      have hsplit : splitAll c (c :: cs) = [] :: splitAll c cs := by
        simp [splitAll]
      rw [hsplit, hht]
      have hjoin : joinSep c ([] :: h :: t) = c :: joinSep c (h :: t) := by
        simp [joinSep]
      rw [hjoin, ← hht, ih]
    · obtain ⟨h, t, hht⟩ := List.exists_cons_of_ne_nil (splitAll_ne_nil sep cs)
      have hsplit : splitAll sep (c :: cs) = (c :: h) :: t := by
        simp [splitAll, hc, hht]
      rw [hsplit, joinSep_cons_cons, ← hht, ih]

/-- A canonical token renders back to itself. -/
theorem canonChunk_render (c : List Char) (h : canonChunk c = true) :
    componentChars (mkComponent c) = c := by
  unfold canonChunk at h
  unfold mkComponent
  cases hp : pyIntParse c with
  | none => rfl
  | some n =>
    rw [hp] at h
    show intRepr n = c
    exact (eq_of_beq h).symm

/-- A canonical version body parses and renders back to itself, for either
epoch. -/
theorem versionBody_render (cs : List Char) (e : Option Int)
    (h : canonBody cs = true) :
    ∃ v : Version, versionBody cs e = some v ∧ v.epoch = e ∧
      joinSep '.' (v.components.map componentChars) ++ '-' :: intRepr v.release = cs := by
  cases hsp : splitFirst '-' cs with
  | none =>
    simp only [canonBody, hsp] at h
    exact Bool.noConfusion h
  | some pr =>
    obtain ⟨up, rel⟩ := pr
    simp only [canonBody, hsp] at h
    cases hrel : pyIntParse rel with
    | none =>
      simp only [hrel] at h
      exact Bool.noConfusion h
    | some r =>
      simp only [hrel, Bool.and_eq_true, decide_eq_true_eq] at h
      obtain ⟨⟨hpos, hrelrep⟩, hall⟩ := h
      have hr0 : ¬ r ≤ 0 := not_le.mpr hpos
      refine ⟨⟨(splitAll '.' up).map mkComponent, r, e⟩, ?_, rfl, ?_⟩
      · simp only [versionBody, hsp, hrel]
        rw [if_neg hr0]
      · have hcomps :
            ((splitAll '.' up).map mkComponent).map componentChars = splitAll '.' up := by
          rw [List.map_map]
          have hid : (splitAll '.' up).map (componentChars ∘ mkComponent) =
              (splitAll '.' up).map id := by
            apply List.map_congr_left
            intro x hx
            exact canonChunk_render x (List.all_eq_true.mp hall x hx)
          rw [hid, List.map_id]
        show joinSep '.' (((splitAll '.' up).map mkComponent).map componentChars) ++
            '-' :: intRepr r = cs
        rw [hcomps, joinSep_splitAll]
        have hrel' : intRepr r = rel := (eq_of_beq hrelrep).symm
        rw [hrel']
        exact (splitFirst_eq '-' cs up rel hsp).symm

/-- C8 (amended): `render(parse(s)) = s` for every accepted string whose
integer tokens are written canonically and whose epoch, when present, is
nonzero; see `canonVersionChars`. -/
theorem C8_render_parse_roundtrip (cs : List Char)
    (h : canonVersionChars cs = true) :
    (versionFromChars cs).map versionRender = some cs := by
  cases hsp : splitFirst ':' cs with
  | none =>
    simp only [canonVersionChars, hsp] at h
    obtain ⟨v, hv, hep, hbody⟩ := versionBody_render cs none h
    simp only [versionFromChars, hsp]
    rw [hv]
    show some (versionRender v) = some cs
    refine congrArg some ?_
    simp only [versionRender, hep]
    exact hbody
  | some pr =>
    obtain ⟨pre, post⟩ := pr
    simp only [canonVersionChars, hsp] at h
    cases hpre : pyIntParse pre with
    | none =>
      simp only [hpre] at h
      exact Bool.noConfusion h
    | some e =>
      simp only [hpre, Bool.and_eq_true] at h
      obtain ⟨⟨hne0, hprerep⟩, hbody0⟩ := h
      obtain ⟨v, hv, hep, hbody⟩ := versionBody_render post (some e) hbody0
      simp only [versionFromChars, hsp, hpre]
      show ((versionBody post (some e)).map versionRender) = some cs
      rw [hv]
      show some (versionRender v) = some cs
      refine congrArg some ?_
      have he0 : ¬ e = 0 := by
        intro hcon
        rw [hcon] at hne0
        simp at hne0
      simp only [versionRender, hep, he0, ite_false]
      rw [hbody]
      have hpre' : intRepr e = pre := (eq_of_beq hprerep).symm
      rw [hpre']
      exact (splitFirst_eq ':' cs pre post hsp).symm

/-- Witness for C8 (amended): the canonical string `1:2.0-3` round-trips. -/
theorem C8_roundtrip_witness :
    canonVersionChars "1:2.0-3".data = true ∧
    (versionFromChars "1:2.0-3".data).map versionRender = some "1:2.0-3".data :=
  ⟨by decide, C8_render_parse_roundtrip "1:2.0-3".data (by decide)⟩

end Alai
